import Mathlib

set_option linter.unusedVariables false

/-! Verification of the streaming diff-annotation engine in
`mwstreaming/utilities/json2diffs.py` (function `json2diffs`, helper `diff`,
and the end-of-stream trailing emission), against its design document.

The tokenizer and the diff detector are external capabilities; they are
modelled as components of an `Env` record, together with a deterministic
abstraction of wall-clock timing (elapsed durations are functions of the
call's inputs) and of the per-invocation deadline (`timesOut` tells which
detector invocations would exceed the deadline).

A JSON document is modelled by `Doc`; only the fields the engine reads or
writes are kept (`page.title`, `text`, `diff`, `tokenize_time`,
`diff_time`), plus an opaque revision id.  Field absence is `none`; a JSON
`null` text is `some none`.  Python `KeyError` (reading a missing `text`
key, `del` of a missing `diff` key) is modelled by the run's success flag
turning `false`; the records emitted before the error are kept, matching
the streamed stdout of the real program. -/

namespace MwStreaming

/-- Tokens produced by the external tokenizer (opaque; modelled as strings). -/
abbrev Token := String

/-- One serialized edit operation (the `op2doc` output; opaque, modelled as a
string). -/
abbrev OpDoc := String

/-- A revision document, as read by `json2diffs`.  `text : none` means the
field is absent, `some none` means the field holds JSON null. -/
structure Doc where
  pageTitle : String
  revId : Nat
  text : Option (Option String) := none
  diff : Option (List OpDoc) := none
  tokenize_time : Option Nat := none
  diff_time : Option Int := none
deriving Repr, DecidableEq

/-- The run mode: exactly one of `--mapper`, `--reducer`, or neither. -/
inductive Mode where
  | standalone
  | mapper
  | reducer
deriving Repr, DecidableEq

/-- Per-page-group loop state (lines 114-116 of `json2diffs.py`), reset at
every group boundary. -/
structure GState where
  lastTokens : List Token
  diffPending : Bool
  firstInGroup : Bool
deriving Repr, DecidableEq

/-- Whole-stream loop state (lines 107-109 of `json2diffs.py`). -/
structure SState where
  firstEver : Bool
  lastText : Option String
  lastDoc : Option Doc
deriving Repr, DecidableEq

/-- The external capabilities and the timing/deadline abstraction.
`detect a b` stands for `[op2doc(op, a, b) for op in detector.diff(a, b)]`;
`timesOut a b` tells whether that invocation would exceed the configured
timeout; `diffElapsed` / `tokElapsed` are the measured wall-clock durations,
abstracted as deterministic functions of the inputs. -/
structure Env where
  tokenize : String → List Token
  detect : List Token → List Token → List OpDoc
  timesOut : List Token → List Token → Bool
  diffElapsed : List Token → List Token → Nat
  tokElapsed : String → Nat

/-- The `diff` helper (lines 88-97): run the detector under the deadline;
always record `diff_time` (sentinel `-1` on timeout); set `diff` only on
success.  On timeout a pre-existing `diff` field is left in place, since the
code never deletes it. -/
def diffStep (env : Env) (d : Doc) (lastTokens tokens : List Token) : Doc :=
  if env.timesOut lastTokens tokens then
    { d with diff_time := some (-1) }
  else
    { d with diff_time := some ((env.diffElapsed lastTokens tokens : Int)),
             diff := some (env.detect lastTokens tokens) }

/-- Tokenization call-site (lines 122-128): skipped (with `tokens = []`) iff
running as reducer on a record that already carries a `diff`; otherwise
tokenize `doc['text'] or ""`, recording `tokenize_time`.  Reading a missing
`text` key raises `KeyError` (`none`). -/
def tokenizeStep (env : Env) (mode : Mode) (d : Doc) : Option (Doc × List Token) :=
  if mode = Mode.reducer ∧ d.diff.isSome then
    some (d, [])
  else
    match d.text with
    | none => none
    | some v =>
        some ({ d with tokenize_time := some (env.tokElapsed (v.getD "")) },
              env.tokenize (v.getD ""))

/-- The per-record diff decision (lines 130-139), returning the updated
record and the new `diff_pending` flag. -/
def decideDoc (env : Env) (mode : Mode) (g : GState) (s : SState)
    (d1 : Doc) (tokens : List Token) : Doc × Bool :=
  match mode with
  | Mode.reducer =>
      if g.firstInGroup then (diffStep env d1 g.lastTokens tokens, g.diffPending)
      else if d1.diff.isNone then
        if g.diffPending then (diffStep env d1 g.lastTokens tokens, false)
        else (d1, true)
      else (d1, g.diffPending)
  | Mode.mapper =>
      if s.firstEver then (d1, g.diffPending)
      else (diffStep env d1 g.lastTokens tokens, g.diffPending)
  | Mode.standalone => (diffStep env d1 g.lastTokens tokens, g.diffPending)

/-- Lines 141-142: remember the last seen `text` value (which may be null). -/
def lastTextUpd (lt : Option String) (d : Doc) : Option String :=
  match d.text with
  | some v => v
  | none => lt

/-- One iteration of the inner loop (lines 117-150): tokenize (maybe), decide
the diff, update `last_revision_text`, emit unless a diff is pending, then
update the loop state.  `none` models a `KeyError` on the `text` field. -/
def processDoc (env : Env) (mode : Mode) (g : GState) (s : SState) (d : Doc) :
    Option (List Doc × GState × SState) :=
  match tokenizeStep env mode d with
  | none => none
  | some (d1, tokens) =>
    let p := decideDoc env mode g s d1 tokens
    some ((if p.2 then [] else [p.1]),
          ⟨tokens, p.2, false⟩,
          ⟨false, lastTextUpd s.lastText p.1, some p.1⟩)

/-- The inner loop over one page group's records.  The output collects the
records emitted before any error; `none` in the second component means the
run died with a `KeyError`. -/
def processDocs (env : Env) (mode : Mode) :
    List Doc → GState → SState → List Doc × Option (GState × SState)
  | [], g, s => ([], some (g, s))
  | d :: ds, g, s =>
    match processDoc env mode g s d with
    | none => ([], none)
    | some (out1, g1, s1) =>
      match processDocs env mode ds g1 s1 with
      | (out2, r) => (out1 ++ out2, r)

/-- The outer loop over page groups (lines 110-153): each group starts from a
fresh `GState` (`last_tokens = []`, `diff_pending = False`,
`first_doc_in_group = True`). -/
def processGroups (env : Env) (mode : Mode) :
    List (List Doc) → SState → List Doc × Option SState
  | [], s => ([], some s)
  | grp :: grps, s =>
    match processDocs env mode grp ⟨[], false, true⟩ s with
    | (out1, none) => (out1, none)
    | (out1, some (_, s1)) =>
      match processGroups env mode grps s1 with
      | (out2, r) => (out1 ++ out2, r)

/-- `itertools.groupby` keyed on `page.title` (line 105): split the stream
into maximal consecutive runs sharing a page title. -/
def groupRuns : List Doc → List (List Doc)
  | [] => []
  | d :: ds =>
    match groupRuns ds with
    | [] => [[d]]
    | [] :: gs => [d] :: [] :: gs
    | (e :: g) :: gs =>
        if d.pageTitle == e.pageTitle then (d :: e :: g) :: gs
        else [d] :: (e :: g) :: gs

/-- The whole generator `json2diffs` (lines 99-158): group, run the loop,
then in mapper mode re-manufacture the last emitted record as a trailing
hand-off record — `del last_revision_doc['diff']` raises `KeyError` when
that record carries no `diff` (success flag `false`).  The first component
is the emitted stream (partial on error), the second is `true` iff the run
completed without a `KeyError`. -/
def json2diffs (env : Env) (mode : Mode) (docs : List Doc) : List Doc × Bool :=
  match processGroups env mode (groupRuns docs) ⟨true, some "", none⟩ with
  | (out, none) => (out, false)
  | (out, some s) =>
    match mode, s.lastDoc with
    | Mode.mapper, some ld =>
      match ld.diff with
      | some _ => (out ++ [{ ld with diff := none, text := some s.lastText }], true)
      | none => (out, false)
    | _, _ => (out, true)

/-! ### Derived descriptions of the engine's per-record effect

These are shorthand for what one successful pass does to a record; they are
assembled from `tokenizeStep` and `diffStep` and proved equal to the engine's
steps below. -/

/-- The token sequence the engine derives from a record's text
(`tokenizer.tokenize(doc['text'] or "")`). -/
def tokensOf (env : Env) (d : Doc) : List Token :=
  env.tokenize ((d.text.getD none).getD "")

/-- A record after its tokenization step (with `tokenize_time` recorded). -/
def withTokTime (env : Env) (d : Doc) : Doc :=
  { d with tokenize_time := some (env.tokElapsed ((d.text.getD none).getD "")) }

/-- A record after one full tokenize-and-diff step against previous tokens
`prev`. -/
def annotDoc (env : Env) (prev : List Token) (d : Doc) : Doc :=
  diffStep env (withTokTime env d) prev (tokensOf env d)

/-- The chain of annotated records a Standalone pass produces from `prev`
onwards: each record is diffed against the tokens of its predecessor. -/
def annotChain (env : Env) (prev : List Token) : List Doc → List Doc
  | [] => []
  | d :: ds => annotDoc env prev d :: annotChain env (tokensOf env d) ds

/-- The previous-token buffer after a chain of records has been consumed. -/
def chainTokens (env : Env) (prev : List Token) : List Doc → List Token
  | [] => prev
  | d :: ds => chainTokens env (tokensOf env d) ds

/-- The `GState` after a Standalone/Mapper pass over a list of records. -/
def stdFinalG (env : Env) (g : GState) : List Doc → GState
  | [] => g
  | d :: ds => stdFinalG env ⟨tokensOf env d, g.diffPending, false⟩ ds

/-- The `SState` after a Standalone pass over a list of records, starting
from previous tokens `prev`. -/
def stdFinalS (env : Env) (prev : List Token) (s : SState) : List Doc → SState
  | [] => s
  | d :: ds =>
      stdFinalS env (tokensOf env d)
        ⟨false, lastTextUpd s.lastText d, some (annotDoc env prev d)⟩ ds

/-! ### Concrete instances used by witnesses and counterexamples -/

/-- A concrete environment with traceable behaviour: a nonempty text becomes
the one-token sequence holding it, and `detect a b` is `a ++ ["->"] ++ b`,
so each diff records both inputs.  No invocation times out. -/
def envC : Env where
  tokenize := fun st => if st = "" then [] else [st]
  detect := fun a b => a ++ ["->"] ++ b
  timesOut := fun _ _ => false
  diffElapsed := fun _ _ => 0
  tokElapsed := fun _ => 0

/-- Like `envC`, but the detector times out exactly when the current token
sequence is `["b"]`. -/
def envT : Env where
  tokenize := fun st => if st = "" then [] else [st]
  detect := fun a b => a ++ ["->"] ++ b
  timesOut := fun _ b => b == ["b"]
  diffElapsed := fun _ _ => 0
  tokElapsed := fun _ => 0

/-- A plain revision document with the given page title, id and text. -/
def mkDoc (t : String) (i : Nat) (txt : String) : Doc :=
  { pageTitle := t, revId := i, text := some (some txt) }

/-! ### Field-projection lemmas -/

@[simp] theorem diffStep_text (env : Env) (d : Doc) (p c : List Token) :
    (diffStep env d p c).text = d.text := by
  unfold diffStep; split <;> rfl

@[simp] theorem diffStep_pageTitle (env : Env) (d : Doc) (p c : List Token) :
    (diffStep env d p c).pageTitle = d.pageTitle := by
  unfold diffStep; split <;> rfl

@[simp] theorem diffStep_tokenize_time (env : Env) (d : Doc) (p c : List Token) :
    (diffStep env d p c).tokenize_time = d.tokenize_time := by
  unfold diffStep; split <;> rfl

@[simp] theorem withTokTime_text (env : Env) (d : Doc) :
    (withTokTime env d).text = d.text := rfl

@[simp] theorem withTokTime_diff (env : Env) (d : Doc) :
    (withTokTime env d).diff = d.diff := rfl

@[simp] theorem withTokTime_diff_time (env : Env) (d : Doc) :
    (withTokTime env d).diff_time = d.diff_time := rfl

@[simp] theorem withTokTime_pageTitle (env : Env) (d : Doc) :
    (withTokTime env d).pageTitle = d.pageTitle := rfl

@[simp] theorem annotDoc_text (env : Env) (p : List Token) (d : Doc) :
    (annotDoc env p d).text = d.text := by
  unfold annotDoc; rw [diffStep_text, withTokTime_text]

@[simp] theorem annotDoc_pageTitle (env : Env) (p : List Token) (d : Doc) :
    (annotDoc env p d).pageTitle = d.pageTitle := by
  unfold annotDoc; rw [diffStep_pageTitle, withTokTime_pageTitle]

@[simp] theorem tokensOf_withTokTime (env : Env) (d : Doc) :
    tokensOf env (withTokTime env d) = tokensOf env d := rfl

theorem withTokTime_idem (env : Env) (d : Doc) :
    withTokTime env (withTokTime env d) = withTokTime env d := rfl

theorem annotDoc_withTokTime (env : Env) (p : List Token) (d : Doc) :
    annotDoc env p (withTokTime env d) = annotDoc env p d := by
  unfold annotDoc; rw [withTokTime_idem, tokensOf_withTokTime]

@[simp] theorem lastTextUpd_diffStep (lt : Option String) (env : Env)
    (d : Doc) (p c : List Token) :
    lastTextUpd lt (diffStep env d p c) = lastTextUpd lt d := by
  unfold lastTextUpd; rw [diffStep_text]

@[simp] theorem lastTextUpd_annotDoc (lt : Option String) (env : Env)
    (p : List Token) (d : Doc) :
    lastTextUpd lt (annotDoc env p d) = lastTextUpd lt d := by
  unfold lastTextUpd; rw [annotDoc_text]

@[simp] theorem lastTextUpd_withTokTime (lt : Option String) (env : Env) (d : Doc) :
    lastTextUpd lt (withTokTime env d) = lastTextUpd lt d := by
  unfold lastTextUpd; rw [withTokTime_text]

/-! ### Behaviour of the tokenization call-site -/

theorem tokenizeStep_not_reducer (env : Env) (mode : Mode) (d : Doc)
    (v : Option String) (hm : mode ≠ Mode.reducer) (ht : d.text = some v) :
    tokenizeStep env mode d = some (withTokTime env d, tokensOf env d) := by
  unfold tokenizeStep
  rw [if_neg (by simp [hm])]
  rw [ht]
  unfold withTokTime tokensOf
  rw [ht]
  rfl

theorem tokenizeStep_reducer_nodiff (env : Env) (d : Doc)
    (v : Option String) (hd : d.diff = none) (ht : d.text = some v) :
    tokenizeStep env Mode.reducer d = some (withTokTime env d, tokensOf env d) := by
  unfold tokenizeStep
  rw [if_neg (by simp [hd])]
  rw [ht]
  unfold withTokTime tokensOf
  rw [ht]
  rfl

theorem tokenizeStep_reducer_diff (env : Env) (d : Doc) (hd : d.diff.isSome) :
    tokenizeStep env Mode.reducer d = some (d, []) := by
  unfold tokenizeStep
  rw [if_pos ⟨rfl, hd⟩]

/-! ### One-record step lemmas, per mode and branch -/

theorem processDoc_standalone (env : Env) (g : GState) (s : SState) (d : Doc)
    (v : Option String) (ht : d.text = some v) (hp : g.diffPending = false) :
    processDoc env Mode.standalone g s d =
      some ([annotDoc env g.lastTokens d],
            ⟨tokensOf env d, false, false⟩,
            ⟨false, lastTextUpd s.lastText d, some (annotDoc env g.lastTokens d)⟩) := by
  unfold processDoc
  rw [tokenizeStep_not_reducer env _ d v (by decide) ht]
  simp [decideDoc, hp, annotDoc]

theorem processDoc_mapper_first (env : Env) (g : GState) (s : SState) (d : Doc)
    (v : Option String) (ht : d.text = some v) (hp : g.diffPending = false)
    (hf : s.firstEver = true) :
    processDoc env Mode.mapper g s d =
      some ([withTokTime env d],
            ⟨tokensOf env d, false, false⟩,
            ⟨false, lastTextUpd s.lastText d, some (withTokTime env d)⟩) := by
  unfold processDoc
  rw [tokenizeStep_not_reducer env _ d v (by decide) ht]
  simp [decideDoc, hp, hf]

theorem processDoc_mapper_eq_standalone (env : Env) (g : GState) (s : SState)
    (d : Doc) (hf : s.firstEver = false) :
    processDoc env Mode.mapper g s d = processDoc env Mode.standalone g s d := by
  unfold processDoc
  have htok : tokenizeStep env Mode.mapper d = tokenizeStep env Mode.standalone d := by
    unfold tokenizeStep
    rw [if_neg (by simp), if_neg (by simp)]
  rw [htok]
  cases tokenizeStep env Mode.standalone d with
  | none => rfl
  | some p => simp [decideDoc, hf]

theorem processDoc_reducer_first (env : Env) (g : GState) (s : SState) (d : Doc)
    (v : Option String) (hfg : g.firstInGroup = true) (hp : g.diffPending = false)
    (hd : d.diff = none) (ht : d.text = some v) :
    processDoc env Mode.reducer g s d =
      some ([annotDoc env g.lastTokens d],
            ⟨tokensOf env d, false, false⟩,
            ⟨false, lastTextUpd s.lastText d, some (annotDoc env g.lastTokens d)⟩) := by
  unfold processDoc
  rw [tokenizeStep_reducer_nodiff env d v hd ht]
  simp [decideDoc, hfg, hp, annotDoc]

theorem processDoc_reducer_first_diff (env : Env) (g : GState) (s : SState)
    (d : Doc) (hfg : g.firstInGroup = true) (hp : g.diffPending = false)
    (hd : d.diff.isSome) :
    processDoc env Mode.reducer g s d =
      some ([diffStep env d g.lastTokens []],
            ⟨[], false, false⟩,
            ⟨false, lastTextUpd s.lastText d, some (diffStep env d g.lastTokens [])⟩) := by
  unfold processDoc
  rw [tokenizeStep_reducer_diff env d hd]
  have : lastTextUpd s.lastText (diffStep env d g.lastTokens []) =
      lastTextUpd s.lastText d := by
    unfold lastTextUpd; rw [diffStep_text]
  simp [decideDoc, hfg, hp, this]

theorem processDoc_reducer_pass (env : Env) (g : GState) (s : SState) (d : Doc)
    (hfg : g.firstInGroup = false) (hd : d.diff.isSome) :
    processDoc env Mode.reducer g s d =
      some ((if g.diffPending then [] else [d]),
            ⟨[], g.diffPending, false⟩,
            ⟨false, lastTextUpd s.lastText d, some d⟩) := by
  unfold processDoc
  rw [tokenizeStep_reducer_diff env d hd]
  have hnd : d.diff.isNone = false := by
    cases hdd : d.diff with
    | none => rw [hdd] at hd; simp at hd
    | some x => rfl
  simp [decideDoc, hfg, hnd]

theorem processDoc_reducer_store (env : Env) (g : GState) (s : SState) (d : Doc)
    (v : Option String) (hfg : g.firstInGroup = false) (hp : g.diffPending = false)
    (hd : d.diff = none) (ht : d.text = some v) :
    processDoc env Mode.reducer g s d =
      some ([],
            ⟨tokensOf env d, true, false⟩,
            ⟨false, lastTextUpd s.lastText d, some (withTokTime env d)⟩) := by
  unfold processDoc
  rw [tokenizeStep_reducer_nodiff env d v hd ht]
  simp [decideDoc, hfg, hp, hd]

theorem processDoc_reducer_stitch (env : Env) (g : GState) (s : SState) (d : Doc)
    (v : Option String) (hfg : g.firstInGroup = false) (hp : g.diffPending = true)
    (hd : d.diff = none) (ht : d.text = some v) :
    processDoc env Mode.reducer g s d =
      some ([diffStep env (withTokTime env d) g.lastTokens (tokensOf env d)],
            ⟨tokensOf env d, false, false⟩,
            ⟨false, lastTextUpd s.lastText d,
             some (diffStep env (withTokTime env d) g.lastTokens (tokensOf env d))⟩) := by
  unfold processDoc
  rw [tokenizeStep_reducer_nodiff env d v hd ht]
  simp [decideDoc, hfg, hp, hd]

/-! ### Loop-level lemmas -/

theorem processDoc_firstEver (env : Env) (mode : Mode) (g : GState) (s : SState)
    (d : Doc) (o : List Doc) (g1 : GState) (s1 : SState)
    (h : processDoc env mode g s d = some (o, g1, s1)) : s1.firstEver = false := by
  unfold processDoc at h
  cases htok : tokenizeStep env mode d with
  | none => rw [htok] at h; cases h
  | some p =>
    rw [htok] at h
    injection h with h2
    have h3 := congrArg (fun t : List Doc × GState × SState => t.2.2.firstEver) h2
    simpa using h3.symm

theorem processDocs_append (env : Env) (mode : Mode) (l1 l2 : List Doc)
    (g : GState) (s : SState) :
    processDocs env mode (l1 ++ l2) g s =
      match processDocs env mode l1 g s with
      | (o1, none) => (o1, none)
      | (o1, some (g1, s1)) =>
        match processDocs env mode l2 g1 s1 with
        | (o2, r) => (o1 ++ o2, r) := by
  induction l1 generalizing g s with
  | nil => simp only [List.nil_append, processDocs]
  | cons d ds ih =>
    cases hpd : processDoc env mode g s d with
    | none => simp only [List.cons_append, processDocs, hpd]
    | some t =>
      obtain ⟨o1, g1, s1⟩ := t
      simp only [List.cons_append, processDocs, hpd, List.append_eq]
      rw [ih g1 s1]
      cases hds : processDocs env mode ds g1 s1 with
      | mk o2 r =>
        cases r with
        | none => simp
        | some t2 =>
          obtain ⟨g2, s2⟩ := t2
          cases processDocs env mode l2 g2 s2 with
          | mk o3 r3 => simp [List.append_assoc]

theorem processDocs_standalone_chain (env : Env) (G : List Doc) (g : GState)
    (s : SState) (htext : ∀ d ∈ G, (d.text).isSome = true)
    (hp : g.diffPending = false) :
    processDocs env Mode.standalone G g s =
      (annotChain env g.lastTokens G,
       some (stdFinalG env g G, stdFinalS env g.lastTokens s G)) := by
  induction G generalizing g s with
  | nil => simp [processDocs, annotChain, stdFinalG, stdFinalS]
  | cons d ds ih =>
    obtain ⟨v, hv⟩ := Option.isSome_iff_exists.mp (htext d (List.mem_cons_self d ds))
    have hstep := processDoc_standalone env g s d v hv hp
    simp only [processDocs, hstep]
    rw [ih ⟨tokensOf env d, false, false⟩
        ⟨false, lastTextUpd s.lastText d, some (annotDoc env g.lastTokens d)⟩
        (fun x hx => htext x (List.mem_cons_of_mem d hx)) rfl]
    simp only [annotChain, stdFinalG, stdFinalS, hp]
    simp

theorem processDocs_mapper_eq_standalone (env : Env) (G : List Doc) (g : GState)
    (s : SState) (hf : s.firstEver = false) :
    processDocs env Mode.mapper G g s = processDocs env Mode.standalone G g s := by
  induction G generalizing g s with
  | nil => rfl
  | cons d ds ih =>
    have hm := processDoc_mapper_eq_standalone env g s d hf
    cases hpd : processDoc env Mode.standalone g s d with
    | none => simp only [processDocs, hm, hpd]
    | some t =>
      obtain ⟨o1, g1, s1⟩ := t
      simp only [processDocs, hm, hpd]
      rw [ih g1 s1 (processDoc_firstEver env Mode.standalone g s d o1 g1 s1 hpd)]

theorem processDocs_reducer_pass (env : Env) (D : List Doc) (g : GState)
    (s : SState) (hall : ∀ d ∈ D, (d.diff).isSome = true)
    (hfg : g.firstInGroup = false) (hp : g.diffPending = false) :
    ∃ g1 s1, processDocs env Mode.reducer D g s = (D, some (g1, s1)) ∧
      g1.firstInGroup = false ∧ g1.diffPending = false := by
  induction D generalizing g s with
  | nil => exact ⟨g, s, rfl, hfg, hp⟩
  | cons d ds ih =>
    have hstep := processDoc_reducer_pass env g s d hfg (hall d (List.mem_cons_self d ds))
    rw [hp] at hstep
    obtain ⟨g1, s1, heq, h1, h2⟩ :=
      ih ⟨[], false, false⟩ ⟨false, lastTextUpd s.lastText d, some d⟩
        (fun x hx => hall x (List.mem_cons_of_mem d hx)) rfl rfl
    refine ⟨g1, s1, ?_, h1, h2⟩
    simp only [processDocs, hstep, heq]
    simp

/-! ### Properties of the grouping step -/

theorem groupRuns_cons (d : Doc) (ds : List Doc) :
    groupRuns (d :: ds) =
      match groupRuns ds with
      | [] => [[d]]
      | [] :: gs => [d] :: [] :: gs
      | (e :: g) :: gs =>
          if d.pageTitle == e.pageTitle then (d :: e :: g) :: gs
          else [d] :: (e :: g) :: gs := rfl

theorem groupRuns_eq_nil {l : List Doc} (h : groupRuns l = []) : l = [] := by
  cases l with
  | nil => rfl
  | cons d ds =>
    rw [groupRuns_cons] at h
    cases hg : groupRuns ds with
    | nil => rw [hg] at h; simp at h
    | cons g gs =>
      rw [hg] at h
      cases g with
      | nil => simp at h
      | cons e g1 =>
        dsimp only at h
        by_cases hb : (d.pageTitle == e.pageTitle) = true
        · rw [if_pos hb] at h; simp at h
        · rw [if_neg hb] at h; simp at h

theorem groupRuns_flatten (l : List Doc) : (groupRuns l).flatten = l := by
  induction l with
  | nil => rfl
  | cons d ds ih =>
    rw [groupRuns_cons]
    cases hg : groupRuns ds with
    | nil =>
      have hnil : ds = [] := groupRuns_eq_nil hg
      subst hnil
      simp
    | cons g gs =>
      rw [hg] at ih
      cases g with
      | nil =>
        simp only [List.flatten_cons, List.nil_append] at ih
        simp [List.flatten_cons, ih]
      | cons e g1 =>
        simp only [List.flatten_cons] at ih
        dsimp only
        by_cases hb : (d.pageTitle == e.pageTitle) = true
        · rw [if_pos hb]
          simp only [List.flatten_cons, ← ih]
          simp
        · rw [if_neg hb]
          simp only [List.flatten_cons, ← ih]
          simp

theorem mem_of_mem_groupRuns {l G : List Doc} {d : Doc}
    (hG : G ∈ groupRuns l) (hd : d ∈ G) : d ∈ l := by
  rw [← groupRuns_flatten l]
  exact List.mem_flatten.mpr ⟨G, hG, hd⟩

theorem groupRuns_of_const (t : String) (l : List Doc) (hne : l ≠ [])
    (hall : ∀ d ∈ l, d.pageTitle = t) : groupRuns l = [l] := by
  induction l with
  | nil => cases hne rfl
  | cons d ds ih =>
    cases ds with
    | nil => rfl
    | cons e ds1 =>
      have hr : groupRuns (e :: ds1) = [e :: ds1] :=
        ih (by simp) (fun x hx => hall x (List.mem_cons_of_mem d hx))
      rw [groupRuns_cons, hr]
      have hde : (d.pageTitle == e.pageTitle) = true := by
        have h1 := hall d (List.mem_cons_self d (e :: ds1))
        have h2 := hall e (List.mem_cons_of_mem d (List.mem_cons_self e ds1))
        rw [h1, h2]; simp
      simp [hde]

/-! ### Properties of the annotated chain -/

theorem annotChain_append (env : Env) (p : List Token) (l1 l2 : List Doc) :
    annotChain env p (l1 ++ l2) =
      annotChain env p l1 ++ annotChain env (chainTokens env p l1) l2 := by
  induction l1 generalizing p with
  | nil => rfl
  | cons d ds ih => simp [annotChain, chainTokens, ih]

theorem annotChain_titles (env : Env) (t : String) :
    ∀ (l : List Doc) (p : List Token), (∀ d ∈ l, d.pageTitle = t) →
      ∀ x ∈ annotChain env p l, x.pageTitle = t := by
  intro l
  induction l with
  | nil => intro p h x hx; simp [annotChain] at hx
  | cons d ds ih =>
    intro p h x hx
    simp only [annotChain, List.mem_cons] at hx
    rcases hx with rfl | hx
    · rw [annotDoc_pageTitle]; exact h d (List.mem_cons_self d ds)
    · exact ih (tokensOf env d) (fun y hy => h y (List.mem_cons_of_mem d hy)) x hx

theorem annotDoc_diff_noTimeout (env : Env) (p : List Token) (d : Doc)
    (h : env.timesOut p (tokensOf env d) = false) :
    (annotDoc env p d).diff = some (env.detect p (tokensOf env d)) := by
  simp [annotDoc, diffStep, h]

theorem annotChain_diff_isSome (env : Env)
    (hTO : ∀ a b, env.timesOut a b = false) :
    ∀ (l : List Doc) (p : List Token), ∀ x ∈ annotChain env p l,
      (x.diff).isSome = true := by
  intro l
  induction l with
  | nil => intro p x hx; simp [annotChain] at hx
  | cons d ds ih =>
    intro p x hx
    simp only [annotChain, List.mem_cons] at hx
    rcases hx with rfl | hx
    · rw [annotDoc_diff_noTimeout env p d (hTO p (tokensOf env d))]; rfl
    · exact ih (tokensOf env d) x hx

theorem lastTextUpd_of_some (lt : Option String) (d : Doc) (v : Option String)
    (h : d.text = some v) : lastTextUpd lt d = v := by
  unfold lastTextUpd; rw [h]

/-- After a nonempty Standalone segment with all texts present, the
whole-stream state remembers exactly the segment's last record: its text
value as `last_revision_text`, and its annotated form as
`last_revision_doc`; the previous-token buffer holds its tokens. -/
theorem stdFinalS_last (env : Env) :
    ∀ (ds : List Doc) (prev : List Token) (s : SState), ds ≠ [] →
      (∀ d ∈ ds, (d.text).isSome = true) →
      ∃ e pv, ds.getLast? = some e ∧ e ∈ ds ∧
        stdFinalS env prev s ds =
          ⟨false, e.text.getD none, some (annotDoc env pv e)⟩ ∧
        chainTokens env prev ds = tokensOf env e := by
  intro ds
  induction ds with
  | nil => intro prev s hne htext; cases hne rfl
  | cons d ds1 ih =>
    intro prev s hne htext
    cases ds1 with
    | nil =>
      obtain ⟨v, hv⟩ := Option.isSome_iff_exists.mp
        (htext d (List.mem_cons_self d []))
      refine ⟨d, prev, rfl, List.mem_cons_self d [], ?_, rfl⟩
      simp only [stdFinalS]
      rw [lastTextUpd_of_some s.lastText d v hv, hv]
      rfl
    | cons e1 ds2 =>
      obtain ⟨e, pv, h1, h2, h3, h4⟩ :=
        ih (tokensOf env d)
          ⟨false, lastTextUpd s.lastText d, some (annotDoc env prev d)⟩
          (by simp) (fun x hx => htext x (List.mem_cons_of_mem d hx))
      exact ⟨e, pv, by rw [List.getLast?_cons_cons]; exact h1,
             List.mem_cons_of_mem d h2, h3, h4⟩

/-! ### Whole-run characterizations -/

theorem processDocs_firstEver (env : Env) (mode : Mode) :
    ∀ (G : List Doc) (g : GState) (s : SState) (g1 : GState) (s1 : SState),
      (processDocs env mode G g s).2 = some (g1, s1) → s.firstEver = false →
      s1.firstEver = false := by
  intro G
  induction G with
  | nil =>
    intro g s g1 s1 h hf
    simp only [processDocs] at h
    injection h with h2
    have h3 := congrArg (fun t : GState × SState => t.2.firstEver) h2
    simp at h3
    rw [← h3]; exact hf
  | cons d ds ih =>
    intro g s g1 s1 h hf
    cases hpd : processDoc env mode g s d with
    | none =>
      simp only [processDocs, hpd] at h
      exact Option.noConfusion h
    | some t =>
      obtain ⟨o, g2, s2⟩ := t
      simp only [processDocs, hpd] at h
      exact ih g2 s2 g1 s1 h (processDoc_firstEver env mode g s d o g2 s2 hpd)

theorem processGroups_standalone (env : Env) :
    ∀ (grps : List (List Doc)) (s : SState),
      (∀ G ∈ grps, ∀ d ∈ G, (d.text).isSome = true) →
      ∃ s1, processGroups env Mode.standalone grps s =
        ((grps.map (fun G => annotChain env [] G)).flatten, some s1) := by
  intro grps
  induction grps with
  | nil => intro s htext; exact ⟨s, rfl⟩
  | cons G grps ih =>
    intro s htext
    have hstd := processDocs_standalone_chain env G ⟨[], false, true⟩ s
      (htext G (List.mem_cons_self G grps)) rfl
    obtain ⟨s1, h1⟩ := ih (stdFinalS env [] s G)
      (fun H hH => htext H (List.mem_cons_of_mem G hH))
    refine ⟨s1, ?_⟩
    simp only [processGroups, hstd, h1, List.map_cons, List.flatten_cons]

theorem processGroups_mapper_eq_standalone (env : Env) :
    ∀ (grps : List (List Doc)) (s : SState), s.firstEver = false →
      processGroups env Mode.mapper grps s =
        processGroups env Mode.standalone grps s := by
  intro grps
  induction grps with
  | nil => intro s hf; rfl
  | cons G grps ih =>
    intro s hf
    have hm := processDocs_mapper_eq_standalone env G ⟨[], false, true⟩ s hf
    cases hds : processDocs env Mode.standalone G ⟨[], false, true⟩ s with
    | mk o r =>
      cases r with
      | none => simp only [processGroups, hm, hds]
      | some t =>
        obtain ⟨g1, s1⟩ := t
        have hs1 : s1.firstEver = false :=
          processDocs_firstEver env Mode.standalone G ⟨[], false, true⟩ s g1 s1
            (by rw [hds]) hf
        simp only [processGroups, hm, hds]
        rw [ih s1 hs1]

/-- Standalone-mode closed form: group the stream, then annotate every group
as a chain started from the empty token sequence. -/
theorem json2diffs_standalone_closed (env : Env) (docs : List Doc)
    (htext : ∀ d ∈ docs, (d.text).isSome = true) :
    json2diffs env Mode.standalone docs =
      (((groupRuns docs).map (fun G => annotChain env [] G)).flatten, true) := by
  obtain ⟨s1, h1⟩ := processGroups_standalone env (groupRuns docs)
    ⟨true, some "", none⟩
    (fun G hG d hd => htext d (mem_of_mem_groupRuns hG hd))
  unfold json2diffs
  rw [h1]

theorem processDocs_mapper_body (env : Env) (c : Doc) (cs : List Doc)
    (v : Option String) (hv : c.text = some v)
    (htext : ∀ d ∈ cs, (d.text).isSome = true) :
    processDocs env Mode.mapper (c :: cs) ⟨[], false, true⟩ ⟨true, some "", none⟩ =
      (withTokTime env c :: annotChain env (tokensOf env c) cs,
       some (stdFinalG env ⟨tokensOf env c, false, false⟩ cs,
             stdFinalS env (tokensOf env c)
               ⟨false, lastTextUpd (some "") c, some (withTokTime env c)⟩ cs)) := by
  have hstep := processDoc_mapper_first env ⟨[], false, true⟩ ⟨true, some "", none⟩
    c v hv rfl rfl
  simp only [processDocs, hstep]
  rw [processDocs_mapper_eq_standalone env cs ⟨tokensOf env c, false, false⟩
      ⟨false, lastTextUpd (some "") c, some (withTokTime env c)⟩ rfl]
  rw [processDocs_standalone_chain env cs ⟨tokensOf env c, false, false⟩
      ⟨false, lastTextUpd (some "") c, some (withTokTime env c)⟩ htext rfl]
  simp

/-- Mapper-mode closed form on a single nonempty page with at least two
revisions, clean inputs and no timeouts: the first record is only tokenized,
the rest form the annotated chain, and a trailing hand-off record is
manufactured from the last annotated record by stripping its `diff` and
restoring its `text`. -/
theorem json2diffs_mapper_closed (env : Env) (t : String) (c : Doc)
    (cs : List Doc)
    (hall : ∀ d ∈ c :: cs, d.pageTitle = t)
    (htext : ∀ d ∈ c :: cs, (d.text).isSome = true)
    (hdc : c.diff = none) (hcs : cs ≠ [])
    (hTO : ∀ a b, env.timesOut a b = false) :
    ∃ e pv, cs.getLast? = some e ∧ e ∈ cs ∧
      json2diffs env Mode.mapper (c :: cs) =
        (withTokTime env c :: annotChain env (tokensOf env c) cs ++
          [{ annotDoc env pv e with diff := none, text := some (e.text.getD none) }],
         true) ∧
      tokensOf env
          { annotDoc env pv e with diff := none, text := some (e.text.getD none) }
        = chainTokens env (tokensOf env c) cs := by
  obtain ⟨v, hv⟩ := Option.isSome_iff_exists.mp (htext c (List.mem_cons_self c cs))
  have hbody := processDocs_mapper_body env c cs v hv
    (fun d hd => htext d (List.mem_cons_of_mem c hd))
  obtain ⟨e, pv, h1, h2, h3, h4⟩ := stdFinalS_last env cs (tokensOf env c)
    ⟨false, lastTextUpd (some "") c, some (withTokTime env c)⟩ hcs
    (fun d hd => htext d (List.mem_cons_of_mem c hd))
  have hdiff : (annotDoc env pv e).diff = some (env.detect pv (tokensOf env e)) :=
    annotDoc_diff_noTimeout env pv e (hTO pv (tokensOf env e))
  refine ⟨e, pv, h1, h2, ?_, ?_⟩
  · unfold json2diffs
    rw [groupRuns_of_const t (c :: cs) (by simp) hall]
    simp only [processGroups, hbody, h3, hdiff]
    simp
  · rw [h4]
    rfl

/-- Reducer step over one mapper chunk's tail: already-finalized records pass
through unchanged, then the trailing diff-less hand-off record is swallowed,
leaving a pending diff whose reference tokens are the hand-off's tokens. -/
theorem processDocs_reducer_mid (env : Env) (D : List Doc) (h : Doc)
    (w : Option String) (hall : ∀ d ∈ D, (d.diff).isSome = true)
    (hdn : h.diff = none) (hw : h.text = some w) (g : GState) (s : SState)
    (hfg : g.firstInGroup = false) (hp : g.diffPending = false) :
    ∃ s1, processDocs env Mode.reducer (D ++ [h]) g s =
      (D, some (⟨tokensOf env h, true, false⟩, s1)) := by
  obtain ⟨g1, s1, heq, h1, h2⟩ := processDocs_reducer_pass env D g s hall hfg hp
  have hstore := processDoc_reducer_store env g1 s1 h w h1 h2 hdn hw
  refine ⟨⟨false, lastTextUpd s1.lastText h, some (withTokTime env h)⟩, ?_⟩
  rw [processDocs_append]
  rw [heq]
  simp only [processDocs, hstore]
  simp

theorem annotDoc_def (env : Env) (p : List Token) (d : Doc) :
    diffStep env (withTokTime env d) p (tokensOf env d) = annotDoc env p d := rfl

/-- Reducer-mode run over the concatenation of two mapper-shaped outputs for
one page: the result is exactly the Standalone annotated chain of the
underlying revisions — the hand-off records are consumed, and the record
after each chunk boundary receives the stitched diff. -/
theorem json2diffs_reducer_pipeline (env : Env) (t : String)
    (hTO : ∀ a b, env.timesOut a b = false)
    (p1 : Doc) (ps : List Doc) (q1 : Doc) (qs : List Doc)
    (hallP : ∀ d ∈ p1 :: ps, d.pageTitle = t)
    (htextP : ∀ d ∈ p1 :: ps, (d.text).isSome = true)
    (hallQ : ∀ d ∈ q1 :: qs, d.pageTitle = t)
    (htextQ : ∀ d ∈ q1 :: qs, (d.text).isSome = true)
    (hdp : p1.diff = none) (hdq : q1.diff = none)
    (hA hB : Doc)
    (hAdn : hA.diff = none) (wA : Option String) (hAt : hA.text = some wA)
    (hApt : hA.pageTitle = t)
    (hAtok : tokensOf env hA = chainTokens env (tokensOf env p1) ps)
    (hBdn : hB.diff = none) (wB : Option String) (hBt : hB.text = some wB)
    (hBpt : hB.pageTitle = t) :
    json2diffs env Mode.reducer
      ((withTokTime env p1 :: annotChain env (tokensOf env p1) ps ++ [hA]) ++
       (withTokTime env q1 :: annotChain env (tokensOf env q1) qs ++ [hB])) =
      (annotChain env [] ((p1 :: ps) ++ (q1 :: qs)), true) := by
  obtain ⟨v1, hv1⟩ := Option.isSome_iff_exists.mp (htextP p1 (List.mem_cons_self p1 ps))
  obtain ⟨v2, hv2⟩ := Option.isSome_iff_exists.mp (htextQ q1 (List.mem_cons_self q1 qs))
  have htitles : ∀ d ∈ (withTokTime env p1 :: annotChain env (tokensOf env p1) ps ++ [hA]) ++
      (withTokTime env q1 :: annotChain env (tokensOf env q1) qs ++ [hB]),
      d.pageTitle = t := by
    have hpart1 : ∀ x ∈ withTokTime env p1 :: annotChain env (tokensOf env p1) ps ++ [hA],
        x.pageTitle = t := by
      intro x hx
      rcases List.mem_cons.mp hx with rfl | hx2
      · rw [withTokTime_pageTitle]; exact hallP p1 (List.mem_cons_self p1 ps)
      · rcases List.mem_append.mp hx2 with hx3 | hx3
        · exact annotChain_titles env t ps (tokensOf env p1)
            (fun y hy => hallP y (List.mem_cons_of_mem p1 hy)) x hx3
        · rw [List.mem_singleton] at hx3; subst hx3; exact hApt
    have hpart2 : ∀ x ∈ withTokTime env q1 :: annotChain env (tokensOf env q1) qs ++ [hB],
        x.pageTitle = t := by
      intro x hx
      rcases List.mem_cons.mp hx with rfl | hx2
      · rw [withTokTime_pageTitle]; exact hallQ q1 (List.mem_cons_self q1 qs)
      · rcases List.mem_append.mp hx2 with hx3 | hx3
        · exact annotChain_titles env t qs (tokensOf env q1)
            (fun y hy => hallQ y (List.mem_cons_of_mem q1 hy)) x hx3
        · rw [List.mem_singleton] at hx3; subst hx3; exact hBpt
    intro d hd
    exact (List.mem_append.mp hd).elim (hpart1 d) (hpart2 d)
  -- step 1: the stream-opening record is diffed against the empty sequence
  have hd1 : (withTokTime env p1).diff = none := by rw [withTokTime_diff]; exact hdp
  have ht1 : (withTokTime env p1).text = some v1 := by rw [withTokTime_text]; exact hv1
  have hstep1 := processDoc_reducer_first env ⟨[], false, true⟩ ⟨true, some "", none⟩
    (withTokTime env p1) v1 rfl rfl hd1 ht1
  simp only [annotDoc_withTokTime, tokensOf_withTokTime, lastTextUpd_withTokTime] at hstep1
  try dsimp only at hstep1
  -- mid A: the finalized P-records pass through; the P hand-off is swallowed
  have hallA : ∀ d ∈ annotChain env (tokensOf env p1) ps, (d.diff).isSome = true :=
    fun d hd => annotChain_diff_isSome env hTO ps (tokensOf env p1) d hd
  obtain ⟨sA, hmidA⟩ := processDocs_reducer_mid env
    (annotChain env (tokensOf env p1) ps) hA wA hallA hAdn hAt
    ⟨tokensOf env p1, false, false⟩
    ⟨false, lastTextUpd (some "") p1, some (annotDoc env [] p1)⟩ rfl rfl
  -- step 3: the Q-opening record receives the stitched diff
  have hd2 : (withTokTime env q1).diff = none := by rw [withTokTime_diff]; exact hdq
  have ht2 : (withTokTime env q1).text = some v2 := by rw [withTokTime_text]; exact hv2
  have hstep3 := processDoc_reducer_stitch env ⟨tokensOf env hA, true, false⟩ sA
    (withTokTime env q1) v2 rfl rfl hd2 ht2
  simp only [withTokTime_idem, tokensOf_withTokTime, lastTextUpd_withTokTime,
    annotDoc_def] at hstep3
  try dsimp only at hstep3
  -- mid B: the finalized Q-records pass through; the Q hand-off is swallowed
  have hallB : ∀ d ∈ annotChain env (tokensOf env q1) qs, (d.diff).isSome = true :=
    fun d hd => annotChain_diff_isSome env hTO qs (tokensOf env q1) d hd
  obtain ⟨sB, hmidB⟩ := processDocs_reducer_mid env
    (annotChain env (tokensOf env q1) qs) hB wB hallB hBdn hBt
    ⟨tokensOf env q1, false, false⟩
    ⟨false, lastTextUpd sA.lastText q1, some (annotDoc env (tokensOf env hA) q1)⟩
    rfl rfl
  -- assemble the run
  unfold json2diffs
  rw [groupRuns_of_const t _ (by simp) htitles]
  simp only [List.cons_append, processGroups, processDocs, hstep1]
  try simp only [List.append_eq]
  rw [processDocs_append]
  rw [hmidA]
  dsimp only
  simp only [processDocs, hstep3]
  try simp only [List.append_eq]
  rw [hmidB]
  dsimp only
  simp only [annotChain]
  rw [annotChain_append]
  simp only [annotChain, chainTokens, ← hAtok]
  simp

/-! ### Claim C2 -/

/-- C2 counterexample: in Reducer mode, the second record of the group
`[rev 1 "a", rev 2 "b"]` lacks a diff with no predecessor pending; the code
stores it as pending but does **not** emit it — the whole run emits only the
first record, so the claimed "emit it without a diff" and the one-in-one-out
property are both false. -/
theorem C2_cex :
    json2diffs envC Mode.reducer [mkDoc "A" 1 "a", mkDoc "A" 2 "b"] =
      ([{ mkDoc "A" 1 "a" with
            tokenize_time := some 0, diff_time := some 0, diff := some ["->", "a"] }],
       true) := by
  decide

/-- C2 (amended): in Reducer mode, a non-first diff-less record with no
pending predecessor has its tokens stored as the pending predecessor
(`lastTokens`, `diffPending := true`), but the record itself is suppressed —
it is never emitted (empty emission list). -/
theorem C2_reducer_store_suppresses (env : Env) (g : GState) (s : SState)
    (d : Doc) (v : Option String) (hfg : g.firstInGroup = false)
    (hp : g.diffPending = false) (hd : d.diff = none) (ht : d.text = some v) :
    processDoc env Mode.reducer g s d =
      some ([], ⟨tokensOf env d, true, false⟩,
            ⟨false, lastTextUpd s.lastText d, some (withTokTime env d)⟩) :=
  processDoc_reducer_store env g s d v hfg hp hd ht

/-- C2 witness. -/
theorem C2_witness :
    processDoc envC Mode.reducer ⟨["x"], false, false⟩ ⟨false, some "x", none⟩
        (mkDoc "A" 2 "b") =
      some ([], ⟨tokensOf envC (mkDoc "A" 2 "b"), true, false⟩,
            ⟨false, lastTextUpd (some "x") (mkDoc "A" 2 "b"),
             some (withTokTime envC (mkDoc "A" 2 "b"))⟩) :=
  C2_reducer_store_suppresses envC ⟨["x"], false, false⟩ ⟨false, some "x", none⟩
    (mkDoc "A" 2 "b") (some "b") rfl rfl rfl rfl

/-! ### Claim C3 -/

/-- C3: the code contradicts the claim.  At end of stream in Mapper mode the
code executes `del last_revision_doc['diff']` unconditionally, which raises
`KeyError` when the last emitted record carries no `diff`.  First conjunct: a
single-record mapper run (the record is stream-first, hence diff-less)
crashes instead of emitting the trailing record.  Second conjunct: a
timed-out final diff (under `envT` the diff onto tokens `["b"]` times out)
also crashes the mapper run at end of stream. -/
theorem C3_trailing_keyerror :
    json2diffs envC Mode.mapper [mkDoc "A" 1 "a"] =
      ([{ mkDoc "A" 1 "a" with tokenize_time := some 0 }], false) ∧
    json2diffs envT Mode.mapper [mkDoc "A" 1 "a", mkDoc "A" 2 "b"] =
      ([{ mkDoc "A" 1 "a" with tokenize_time := some 0 },
        { mkDoc "A" 2 "b" with tokenize_time := some 0, diff_time := some (-1) }],
       false) := by
  constructor <;> decide

/-! ### Claim C5 -/

/-- C5: deadline-bounded diff invocation.  If the invocation completes, the
record's `diff` is set to the detector's operations and `diff_time` to the
elapsed duration; if it times out, `diff_time` is the sentinel `-1` and
`diff` is not set (a clean record stays diff-less).  Moreover, processing
continues: the per-record step still succeeds (emits and moves on) for any
record with a `text` field, whatever `timesOut` says. -/
theorem C5_diff_deadline (env : Env) (d : Doc) (p c : List Token) :
    (env.timesOut p c = false →
      diffStep env d p c =
        { d with
            diff := some (env.detect p c)
            diff_time := some ((env.diffElapsed p c : Int)) }) ∧
    (env.timesOut p c = true →
      diffStep env d p c = { d with diff_time := some (-1) } ∧
      (d.diff = none → (diffStep env d p c).diff = none)) ∧
    (∀ (g : GState) (s : SState) (v : Option String), d.text = some v →
      (processDoc env Mode.standalone g s d).isSome = true) := by
  refine ⟨?_, ?_, ?_⟩
  · intro h
    simp only [diffStep, h, Bool.false_eq_true, if_false]
  · intro h
    refine ⟨by simp only [diffStep, h, if_true], ?_⟩
    intro hd
    simp only [diffStep, h, if_true]
    exact hd
  · intro g s v hv
    unfold processDoc
    rw [tokenizeStep_not_reducer env Mode.standalone d v (by decide) hv]
    rfl

/-- C5 witness: under `envT`, diffing onto tokens `["a"]` completes while
diffing onto `["b"]` times out. -/
theorem C5_witness :
    (diffStep envT (mkDoc "A" 1 "a") [] ["a"] =
      { mkDoc "A" 1 "a" with
          diff := some (envT.detect [] ["a"])
          diff_time := some ((envT.diffElapsed [] ["a"] : Int)) }) ∧
    (diffStep envT (mkDoc "A" 2 "b") [] ["b"] =
      { mkDoc "A" 2 "b" with diff_time := some (-1) }) ∧
    (processDoc envT Mode.standalone ⟨[], false, false⟩ ⟨false, some "", none⟩
        (mkDoc "A" 2 "b")).isSome = true :=
  ⟨(C5_diff_deadline envT (mkDoc "A" 1 "a") [] ["a"]).1 (by decide),
   ((C5_diff_deadline envT (mkDoc "A" 2 "b") [] ["b"]).2.1 (by decide)).1,
   (C5_diff_deadline envT (mkDoc "A" 2 "b") [] []).2.2 ⟨[], false, false⟩
     ⟨false, some "", none⟩ (some "b") rfl⟩

/-! ### Claim C6 -/

/-- C6 counterexample: a record whose `text` **field is absent** does not
tokenize to the empty sequence — the run raises `KeyError` (success flag
`false`, nothing emitted), because the code reads `revision_doc['text']`
unconditionally. -/
theorem C6_cex :
    json2diffs envC Mode.standalone [{ pageTitle := "A", revId := 1 }] =
      ([], false) ∧
    tokenizeStep envC Mode.standalone { pageTitle := "A", revId := 1 } = none := by
  constructor <;> rfl

/-- C6 (amended): for a record that is tokenized in the current pass, a
**null** `text` (JSON null, field present) is treated as empty text and — as
long as the tokenizer maps empty text to the empty sequence — yields the
empty token sequence, in every mode; an absent `text` field instead raises. -/
theorem C6_null_text_empty_tokens (env : Env) (mode : Mode) (d : Doc)
    (hnull : d.text = some none)
    (hskip : ¬(mode = Mode.reducer ∧ d.diff.isSome = true))
    (htok : env.tokenize "" = []) :
    tokenizeStep env mode d = some (withTokTime env d, []) ∧
    tokensOf env d = [] := by
  constructor
  · unfold tokenizeStep withTokTime
    rw [if_neg hskip]
    simp [hnull, htok]
  · unfold tokensOf
    rw [hnull]
    exact htok

/-- C6 witness. -/
theorem C6_witness :
    tokenizeStep envC Mode.standalone
        { pageTitle := "A", revId := 1, text := some none } =
      some (withTokTime envC { pageTitle := "A", revId := 1, text := some none },
            []) ∧
    tokensOf envC { pageTitle := "A", revId := 1, text := some none } = [] :=
  C6_null_text_empty_tokens envC Mode.standalone
    { pageTitle := "A", revId := 1, text := some none } rfl (by decide) (by decide)

/-! ### Claim C7 -/

/-- C7 counterexample: reducer input `[r1, X, Y, Z]` on one page, where `X`
and `Z` are diff-less and `Y` carries a diff.  `X` sets the pending state,
but the pass-through of `Y` overwrites the previous-token buffer with the
empty placeholder (line 147 runs unconditionally), so `Z`'s stitched diff is
computed against `[]` — not against the pending predecessor `X`'s tokens. -/
theorem C7_cex :
    ((json2diffs envC Mode.reducer
        [mkDoc "A" 1 "a", mkDoc "A" 2 "x",
         { mkDoc "A" 3 "y" with diff := some ["pre"] }, mkDoc "A" 4 "z"]).1.map
        Doc.diff) = [some ["->", "a"], some ["->", "z"]] ∧
    envC.detect (tokensOf envC (mkDoc "A" 2 "x")) (tokensOf envC (mkDoc "A" 4 "z"))
      = ["x", "->", "z"] ∧
    (["->", "z"] : List OpDoc) ≠ ["x", "->", "z"] := by
  refine ⟨by decide, by decide, by decide⟩

/-- C7 (amended): when the diff-less record pairing with the pending
predecessor arrives **immediately after** the record that set the pending
state, its diff is computed between the pending predecessor's tokens and its
own tokens, the pending state is cleared, and the predecessor itself was
suppressed (only the stitched record is emitted).  (If finalized records
intervene, the previous-token buffer is reset to the empty placeholder by
their skipped tokenization — the skipped record's own token sequence is
never produced.) -/
theorem C7_stitch (env : Env) (g : GState) (s : SState) (X Z : Doc)
    (vx vz : Option String) (hfg : g.firstInGroup = false)
    (hp : g.diffPending = false) (hdx : X.diff = none) (hdz : Z.diff = none)
    (htx : X.text = some vx) (htz : Z.text = some vz) :
    processDocs env Mode.reducer [X, Z] g s =
      ([diffStep env (withTokTime env Z) (tokensOf env X) (tokensOf env Z)],
       some (⟨tokensOf env Z, false, false⟩,
             ⟨false, lastTextUpd (lastTextUpd s.lastText X) Z,
              some (diffStep env (withTokTime env Z) (tokensOf env X)
                      (tokensOf env Z))⟩)) := by
  have h1 := processDoc_reducer_store env g s X vx hfg hp hdx htx
  have h2 := processDoc_reducer_stitch env ⟨tokensOf env X, true, false⟩
    ⟨false, lastTextUpd s.lastText X, some (withTokTime env X)⟩ Z vz rfl rfl hdz htz
  simp only [processDocs, h1, h2]
  simp

/-- C7 witness. -/
theorem C7_witness :
    processDocs envC Mode.reducer [mkDoc "A" 2 "x", mkDoc "A" 3 "z"]
        ⟨["a"], false, false⟩ ⟨false, some "a", none⟩ =
      ([diffStep envC (withTokTime envC (mkDoc "A" 3 "z"))
          (tokensOf envC (mkDoc "A" 2 "x")) (tokensOf envC (mkDoc "A" 3 "z"))],
       some (⟨tokensOf envC (mkDoc "A" 3 "z"), false, false⟩,
             ⟨false, lastTextUpd (lastTextUpd (some "a") (mkDoc "A" 2 "x"))
                       (mkDoc "A" 3 "z"),
              some (diffStep envC (withTokTime envC (mkDoc "A" 3 "z"))
                      (tokensOf envC (mkDoc "A" 2 "x"))
                      (tokensOf envC (mkDoc "A" 3 "z")))⟩)) :=
  C7_stitch envC ⟨["a"], false, false⟩ ⟨false, some "a", none⟩
    (mkDoc "A" 2 "x") (mkDoc "A" 3 "z") (some "x") (some "z")
    rfl rfl rfl rfl rfl rfl

/-! ### Claim C8 -/

/-- C8 counterexample: reducer input `[r1, X, Y]` on one page, where `X` is
diff-less (it sets the pending state) and `Y` already carries a diff.  `Y`
is **not** emitted at all: `if not diff_pending: yield` suppresses it while a
diff is pending, so "emitted with all of its fields unchanged" fails. -/
theorem C8_cex :
    (json2diffs envC Mode.reducer
        [mkDoc "A" 1 "a", mkDoc "A" 2 "x",
         { mkDoc "A" 3 "y" with diff := some ["pre"] }]).1 =
      [{ mkDoc "A" 1 "a" with
           tokenize_time := some 0, diff_time := some 0, diff := some ["->", "a"] }]
      := by
  decide

/-- C8 (amended): in Reducer mode a non-first record that already carries a
diff is passed through untouched — no tokenization (no `tokenize_time`
added), no diff recomputation, the record itself unchanged — and it is
emitted exactly when no diff is pending; while a diff is pending it is
suppressed entirely.  Its skipped tokenization leaves the empty placeholder
as the token buffer. -/
theorem C8_passthrough (env : Env) (g : GState) (s : SState) (d : Doc)
    (hfg : g.firstInGroup = false) (hd : (d.diff).isSome = true) :
    processDoc env Mode.reducer g s d =
      some ((if g.diffPending then [] else [d]), ⟨[], g.diffPending, false⟩,
            ⟨false, lastTextUpd s.lastText d, some d⟩) :=
  processDoc_reducer_pass env g s d hfg hd

/-- C8 witness. -/
theorem C8_witness :
    processDoc envC Mode.reducer ⟨["a"], false, false⟩ ⟨false, some "a", none⟩
        { mkDoc "A" 3 "y" with diff := some ["pre"] } =
      some ([{ mkDoc "A" 3 "y" with diff := some ["pre"] }], ⟨[], false, false⟩,
            ⟨false,
             lastTextUpd (some "a") { mkDoc "A" 3 "y" with diff := some ["pre"] },
             some { mkDoc "A" 3 "y" with diff := some ["pre"] }⟩) :=
  C8_passthrough envC ⟨["a"], false, false⟩ ⟨false, some "a", none⟩
    { mkDoc "A" 3 "y" with diff := some ["pre"] } rfl rfl

/-! ### Claim C10 -/

/-- C10: in Reducer mode, a page group's first record that already carries a
precomputed diff is not passed through unchanged: its tokenization is
skipped (token sequence taken as the empty placeholder), the diff step runs
on the empty previous and empty current sequences, and — when that
invocation completes — its result **overwrites** the record's existing
`diff` and sets `diff_time`, while `tokenize_time` is left untouched. -/
theorem C10_reducer_first_overwrite (env : Env) (s : SState) (d : Doc)
    (ops : List OpDoc) (hd : d.diff = some ops)
    (hTO : env.timesOut [] [] = false) :
    processDoc env Mode.reducer ⟨[], false, true⟩ s d =
      some ([{ d with
                 diff := some (env.detect [] [])
                 diff_time := some ((env.diffElapsed [] [] : Int)) }],
            ⟨[], false, false⟩,
            ⟨false, lastTextUpd s.lastText d,
             some { d with
                      diff := some (env.detect [] [])
                      diff_time := some ((env.diffElapsed [] [] : Int)) }⟩) ∧
    ({ d with
         diff := some (env.detect [] [])
         diff_time := some ((env.diffElapsed [] [] : Int)) } : Doc).tokenize_time
      = d.tokenize_time := by
  have h := processDoc_reducer_first_diff env ⟨[], false, true⟩ s d rfl rfl
    (by rw [hd]; rfl)
  have hds : diffStep env d [] [] =
      { d with
          diff := some (env.detect [] [])
          diff_time := some ((env.diffElapsed [] [] : Int)) } := by
    unfold diffStep
    rw [hTO]
    rfl
  refine ⟨?_, rfl⟩
  rw [h]
  dsimp only
  rw [hds]

/-- C10 witness. -/
theorem C10_witness :
    processDoc envC Mode.reducer ⟨[], false, true⟩ ⟨true, some "", none⟩
        { mkDoc "A" 3 "y" with diff := some ["pre"] } =
      some ([{ { mkDoc "A" 3 "y" with diff := some ["pre"] } with
                 diff := some (envC.detect [] [])
                 diff_time := some ((envC.diffElapsed [] [] : Int)) }],
            ⟨[], false, false⟩,
            ⟨false,
             lastTextUpd (some "") { mkDoc "A" 3 "y" with diff := some ["pre"] },
             some { { mkDoc "A" 3 "y" with diff := some ["pre"] } with
                      diff := some (envC.detect [] [])
                      diff_time := some ((envC.diffElapsed [] [] : Int)) }⟩) ∧
    ({ { mkDoc "A" 3 "y" with diff := some ["pre"] } with
         diff := some (envC.detect [] [])
         diff_time := some ((envC.diffElapsed [] [] : Int)) } : Doc).tokenize_time
      = ({ mkDoc "A" 3 "y" with diff := some ["pre"] } : Doc).tokenize_time :=
  C10_reducer_first_overwrite envC ⟨true, some "", none⟩
    { mkDoc "A" 3 "y" with diff := some ["pre"] } ["pre"] rfl (by decide)

/-! ### Claim C4 -/

/-- C4: in Standalone mode the output is, group by group, the annotated
chain restarted from the empty token sequence: the group's first record is
diffed against `[]` and every subsequent record against the immediately
preceding record's tokens (see `annotChain`/`annotDoc`).  Additionally, for
clean inputs, whenever an annotated record carries a diff, that diff equals
`detect prevTokens ownTokens`. -/
theorem C4_standalone_chain (env : Env) (docs : List Doc)
    (htext : ∀ d ∈ docs, (d.text).isSome = true)
    (hdiff : ∀ d ∈ docs, d.diff = none) :
    json2diffs env Mode.standalone docs =
      (((groupRuns docs).map (fun G => annotChain env [] G)).flatten, true) ∧
    (∀ p d, d ∈ docs → ((annotDoc env p d).diff).isSome = true →
      (annotDoc env p d).diff = some (env.detect p (tokensOf env d))) := by
  constructor
  · exact json2diffs_standalone_closed env docs htext
  · intro p d hd hsome
    by_cases hTO : env.timesOut p (tokensOf env d) = true
    · exfalso
      have hkeep : (annotDoc env p d).diff = d.diff := by
        simp [annotDoc, diffStep, hTO]
      rw [hkeep, hdiff d hd] at hsome
      simp at hsome
    · have hTO2 : env.timesOut p (tokensOf env d) = false := by
        simpa using hTO
      exact annotDoc_diff_noTimeout env p d hTO2

/-- C4 witness: a concrete two-page stream. -/
theorem C4_witness :
    json2diffs envC Mode.standalone [mkDoc "A" 1 "a", mkDoc "B" 2 "b"] =
      (((groupRuns [mkDoc "A" 1 "a", mkDoc "B" 2 "b"]).map
        (fun G => annotChain envC [] G)).flatten, true) ∧
    (annotDoc envC ["x"] (mkDoc "A" 1 "a")).diff =
      some (envC.detect ["x"] (tokensOf envC (mkDoc "A" 1 "a"))) := by
  have h := C4_standalone_chain envC [mkDoc "A" 1 "a", mkDoc "B" 2 "b"]
    (by decide) (by decide)
  exact ⟨h.1, h.2 ["x"] (mkDoc "A" 1 "a") (by decide) (by decide)⟩

/-! ### Claim C9 -/

theorem processDocs_firstEver_cons (env : Env) (mode : Mode) (d : Doc)
    (ds : List Doc) (g : GState) (s : SState) (g1 : GState) (s1 : SState)
    (h : (processDocs env mode (d :: ds) g s).2 = some (g1, s1)) :
    s1.firstEver = false := by
  cases hpd : processDoc env mode g s d with
  | none =>
    simp only [processDocs, hpd] at h
    exact Option.noConfusion h
  | some t =>
    obtain ⟨o, g2, s2⟩ := t
    simp only [processDocs, hpd] at h
    exact processDocs_firstEver env mode ds g2 s2 g1 s1 h
      (processDoc_firstEver env mode g s d o g2 s2 hpd)

/-- C9: in Mapper mode the very first record of the entire input stream is
never diffed — the first emitted record is the input record with only
`tokenize_time` added, so for a clean input it carries neither `diff` nor
`diff_time` — while the rest of the main loop's output is identical to the
Standalone run's output on the same stream. -/
theorem C9_mapper_first (env : Env) (d0 : Doc) (rest : List Doc)
    (htext : ∀ d ∈ d0 :: rest, (d.text).isSome = true)
    (hd0 : d0.diff = none) (hdt0 : d0.diff_time = none) :
    ((processGroups env Mode.mapper (groupRuns (d0 :: rest))
        ⟨true, some "", none⟩).1.head? = some (withTokTime env d0)) ∧
    (withTokTime env d0).diff = none ∧
    (withTokTime env d0).diff_time = none ∧
    (processGroups env Mode.mapper (groupRuns (d0 :: rest))
        ⟨true, some "", none⟩).1.tail =
      (processGroups env Mode.standalone (groupRuns (d0 :: rest))
        ⟨true, some "", none⟩).1.tail := by
  obtain ⟨g0, gs, hgr⟩ : ∃ g0 gs, groupRuns (d0 :: rest) = (d0 :: g0) :: gs := by
    rw [groupRuns_cons]
    cases groupRuns rest with
    | nil => exact ⟨[], [], rfl⟩
    | cons g gs2 =>
      cases g with
      | nil => exact ⟨[], [] :: gs2, rfl⟩
      | cons e g1 =>
        dsimp only
        by_cases hb : (d0.pageTitle == e.pageTitle) = true
        · refine ⟨e :: g1, gs2, ?_⟩
          rw [if_pos hb]
        · refine ⟨[], (e :: g1) :: gs2, ?_⟩
          rw [if_neg hb]
  have hgmem : ∀ d ∈ d0 :: g0, d ∈ d0 :: rest := by
    intro d hd
    exact mem_of_mem_groupRuns (l := d0 :: rest) (by rw [hgr]; exact List.mem_cons_self _ _) hd
  have hgsmem : ∀ G ∈ gs, ∀ d ∈ G, d ∈ d0 :: rest := by
    intro G hG d hd
    exact mem_of_mem_groupRuns (l := d0 :: rest) (by rw [hgr]; exact List.mem_cons_of_mem _ hG) hd
  obtain ⟨v0, hv0⟩ := Option.isSome_iff_exists.mp
    (htext d0 (List.mem_cons_self d0 rest))
  have htg0 : ∀ d ∈ g0, (d.text).isSome = true :=
    fun d hd => htext d (hgmem d (List.mem_cons_of_mem d0 hd))
  have hbody := processDocs_mapper_body env d0 g0 v0 hv0 htg0
  have hstd1 := processDocs_standalone_chain env (d0 :: g0) ⟨[], false, true⟩
    ⟨true, some "", none⟩ (fun d hd => htext d (hgmem d hd)) rfl
  have hfE : (stdFinalS env (tokensOf env d0)
      ⟨false, lastTextUpd (some "") d0, some (withTokTime env d0)⟩ g0).firstEver
      = false :=
    processDocs_firstEver_cons env Mode.mapper d0 g0 ⟨[], false, true⟩
      ⟨true, some "", none⟩ _ _ (by rw [hbody])
  have hmapgs := processGroups_mapper_eq_standalone env gs
    (stdFinalS env (tokensOf env d0)
      ⟨false, lastTextUpd (some "") d0, some (withTokTime env d0)⟩ g0) hfE
  have htgs : ∀ G ∈ gs, ∀ d ∈ G, (d.text).isSome = true :=
    fun G hG d hd => htext d (hgsmem G hG d hd)
  obtain ⟨sM, hgsM⟩ := processGroups_standalone env gs
    (stdFinalS env (tokensOf env d0)
      ⟨false, lastTextUpd (some "") d0, some (withTokTime env d0)⟩ g0) htgs
  obtain ⟨sS, hgsS⟩ := processGroups_standalone env gs
    (stdFinalS env [] ⟨true, some "", none⟩ (d0 :: g0)) htgs
  refine ⟨?_, by rw [withTokTime_diff]; exact hd0,
          by rw [withTokTime_diff_time]; exact hdt0, ?_⟩
  · rw [hgr]
    simp only [processGroups, hbody, hmapgs, hgsM]
    simp
  · rw [hgr]
    simp only [processGroups, hbody, hmapgs, hgsM, hstd1, hgsS]
    simp only [annotChain]
    simp

/-- C9 witness. -/
theorem C9_witness :
    ((processGroups envC Mode.mapper (groupRuns [mkDoc "A" 1 "a", mkDoc "A" 2 "b"])
        ⟨true, some "", none⟩).1.head? = some (withTokTime envC (mkDoc "A" 1 "a"))) ∧
    (withTokTime envC (mkDoc "A" 1 "a")).diff = none ∧
    (withTokTime envC (mkDoc "A" 1 "a")).diff_time = none ∧
    (processGroups envC Mode.mapper (groupRuns [mkDoc "A" 1 "a", mkDoc "A" 2 "b"])
        ⟨true, some "", none⟩).1.tail =
      (processGroups envC Mode.standalone
        (groupRuns [mkDoc "A" 1 "a", mkDoc "A" 2 "b"]) ⟨true, some "", none⟩).1.tail :=
  C9_mapper_first envC (mkDoc "A" 1 "a") [mkDoc "A" 2 "b"] (by decide) rfl rfl

/-! ### Claim C1 -/

/-- C1 counterexample: split the page `[r1, r2, r3]` at boundary 1.  The
mapper run over the single record `[r1]` dies with `KeyError` before it can
emit its trailing hand-off record (its only record is stream-first and so
diff-less).  Feeding the partial outputs to the reducer yields two records
whose diffs are `[-> a]` and `[-> c]`, while the Standalone run yields three
records with diffs `[-> a]`, `[a -> b]`, `[b -> c]`: revision 2 is dropped
and revision 3's duplicate — the manufactured hand-off — carries a diff that
differs from revision 3's Standalone diff, so the claim fails at this
boundary. -/
theorem C1_cex :
    ((json2diffs envC Mode.reducer
        ((json2diffs envC Mode.mapper [mkDoc "A" 1 "a"]).1 ++
         (json2diffs envC Mode.mapper [mkDoc "A" 2 "b", mkDoc "A" 3 "c"]).1)).1.map
        Doc.diff = [some ["->", "a"], some ["->", "c"]]) ∧
    ((json2diffs envC Mode.standalone
        [mkDoc "A" 1 "a", mkDoc "A" 2 "b", mkDoc "A" 3 "c"]).1.map Doc.diff =
      [some ["->", "a"], some ["a", "->", "b"], some ["b", "->", "c"]]) ∧
    (json2diffs envC Mode.mapper [mkDoc "A" 1 "a"]).2 = false := by
  refine ⟨by decide, by decide, by decide⟩

/-- C1 (amended): for one contiguous page split at any boundary that leaves
at least two revisions in each Mapper chunk (so that neither mapper run hits
the trailing `KeyError` of C3), with well-formed inputs (text present, no
precomputed diffs) and no diff timeouts, the Reducer run over the
concatenated Mapper outputs produces **exactly** the Standalone run's
output: every emitted record, diff included, matches, and the manufactured
hand-off records are consumed by the reducer (they are not re-emitted); the
hand-off record itself carries no diff in the mapper output. -/
theorem C1_mapper_reducer_equiv (env : Env) (t : String) (P Q : List Doc)
    (hall : ∀ d ∈ P ++ Q, d.pageTitle = t)
    (htext : ∀ d ∈ P ++ Q, (d.text).isSome = true)
    (hdiff : ∀ d ∈ P ++ Q, d.diff = none)
    (hTO : ∀ a b, env.timesOut a b = false)
    (hP : 2 ≤ P.length) (hQ : 2 ≤ Q.length) :
    json2diffs env Mode.reducer
        ((json2diffs env Mode.mapper P).1 ++ (json2diffs env Mode.mapper Q).1) =
      json2diffs env Mode.standalone (P ++ Q) ∧
    ((json2diffs env Mode.mapper P).1.getLast?).map Doc.diff = some none := by
  cases P with
  | nil => simp at hP
  | cons p1 ps =>
    cases Q with
    | nil => simp at hQ
    | cons q1 qs =>
      have hpsne : ps ≠ [] := by
        intro h; subst h; simp at hP
      have hqsne : qs ≠ [] := by
        intro h; subst h; simp at hQ
      have hallP : ∀ d ∈ p1 :: ps, d.pageTitle = t :=
        fun d hd => hall d (List.mem_append_left _ hd)
      have htextP : ∀ d ∈ p1 :: ps, (d.text).isSome = true :=
        fun d hd => htext d (List.mem_append_left _ hd)
      have hallQ : ∀ d ∈ q1 :: qs, d.pageTitle = t :=
        fun d hd => hall d (List.mem_append_right _ hd)
      have htextQ : ∀ d ∈ q1 :: qs, (d.text).isSome = true :=
        fun d hd => htext d (List.mem_append_right _ hd)
      have hdP : p1.diff = none :=
        hdiff p1 (List.mem_append_left _ (List.mem_cons_self _ _))
      have hdQ : q1.diff = none :=
        hdiff q1 (List.mem_append_right _ (List.mem_cons_self _ _))
      obtain ⟨eP, pvP, h1P, h2P, hmapP, htokP⟩ :=
        json2diffs_mapper_closed env t p1 ps hallP htextP hdP hpsne hTO
      obtain ⟨eQ, pvQ, h1Q, h2Q, hmapQ, htokQ⟩ :=
        json2diffs_mapper_closed env t q1 qs hallQ htextQ hdQ hqsne hTO
      have hePt : eP.pageTitle = t := hallP eP (List.mem_cons_of_mem p1 h2P)
      have heQt : eQ.pageTitle = t := hallQ eQ (List.mem_cons_of_mem q1 h2Q)
      have hPo : (json2diffs env Mode.mapper (p1 :: ps)).1 =
          withTokTime env p1 :: annotChain env (tokensOf env p1) ps ++
            [{ annotDoc env pvP eP with
                 diff := none
                 text := some (eP.text.getD none) }] := by
        rw [hmapP]
      have hQo : (json2diffs env Mode.mapper (q1 :: qs)).1 =
          withTokTime env q1 :: annotChain env (tokensOf env q1) qs ++
            [{ annotDoc env pvQ eQ with
                 diff := none
                 text := some (eQ.text.getD none) }] := by
        rw [hmapQ]
      constructor
      · rw [hPo, hQo,
            json2diffs_reducer_pipeline env t hTO p1 ps q1 qs hallP htextP hallQ
              htextQ hdP hdQ
              { annotDoc env pvP eP with
                  diff := none
                  text := some (eP.text.getD none) }
              { annotDoc env pvQ eQ with
                  diff := none
                  text := some (eQ.text.getD none) }
              rfl (eP.text.getD none) rfl (by simp [hePt]) htokP
              rfl (eQ.text.getD none) rfl (by simp [heQt]),
            json2diffs_standalone_closed env ((p1 :: ps) ++ (q1 :: qs)) htext,
            groupRuns_of_const t ((p1 :: ps) ++ (q1 :: qs)) (by simp) hall]
        simp
      · rw [hPo]
        rw [show withTokTime env p1 :: annotChain env (tokensOf env p1) ps ++
              [{ annotDoc env pvP eP with
                   diff := none
                   text := some (eP.text.getD none) }] =
            (withTokTime env p1 :: annotChain env (tokensOf env p1) ps) ++
              [{ annotDoc env pvP eP with
                   diff := none
                   text := some (eP.text.getD none) }] from by simp]
        rw [List.getLast?_concat]
        rfl

/-- C1 witness: a four-revision page split in the middle. -/
theorem C1_witness :
    json2diffs envC Mode.reducer
        ((json2diffs envC Mode.mapper [mkDoc "A" 1 "a", mkDoc "A" 2 "b"]).1 ++
         (json2diffs envC Mode.mapper [mkDoc "A" 3 "c", mkDoc "A" 4 "d"]).1) =
      json2diffs envC Mode.standalone
        ([mkDoc "A" 1 "a", mkDoc "A" 2 "b"] ++ [mkDoc "A" 3 "c", mkDoc "A" 4 "d"]) ∧
    ((json2diffs envC Mode.mapper
        [mkDoc "A" 1 "a", mkDoc "A" 2 "b"]).1.getLast?).map Doc.diff = some none :=
  C1_mapper_reducer_equiv envC "A" [mkDoc "A" 1 "a", mkDoc "A" 2 "b"]
    [mkDoc "A" 3 "c", mkDoc "A" 4 "d"] (by decide) (by decide) (by decide)
    (fun a b => rfl) (by decide) (by decide)

end MwStreaming
